/-
Verification of the cnn-layer-visualizer backend (Python) against its
natural-language specification, via a shallow embedding in Lean 4.

Embedding conventions:
* Python byte strings are `List Nat` (one entry per byte); ASCII text is
  embedded through `strBytes`, which agrees with UTF-8 on the ASCII
  strings that actually occur in the code.
* The SHA-256 hex digest used as a cache key is modelled by its preimage
  (the concatenated byte string that the code hashes): SHA-256 is a fixed
  deterministic function, so equal preimages give equal digests, and the
  code relies on nothing else about the digest.
* `float` arithmetic is modelled over `ℚ`; `astype(np.uint8)` on values
  already clamped to `[0, 255]` is truncation, i.e. `Int.floor` on
  non-negative values.
* Python `OrderedDict` values are association lists in insertion order:
  the head is the oldest entry (`next(iter(d))`), `move_to_end` removes
  the key and appends it.
* Exceptions are modelled with `Except String`.
-/

import Mathlib

namespace CNNViz

/-! ### Basic helpers -/

/-- Bytes of an ASCII string (agrees with UTF-8 for the ASCII strings used). -/
def strBytes (s : String) : List Nat :=
  s.toList.map Char.toNat

/-- Keys of an association list. -/
def keys {α : Type} (l : List (String × α)) : List String :=
  l.map Prod.fst

/-- Erase the first binding of `k` (Python `del d[k]` on a dict with unique keys). -/
def eraseKey {α : Type} (l : List (String × α)) (k : String) : List (String × α) :=
  match l with
  | [] => []
  | (k', v) :: rest => if k' = k then rest else (k', v) :: eraseKey rest k

/-- `OrderedDict.move_to_end(k)` for a present key; identity when absent
(the call sites guard presence; `CacheService.set` is the one that does not,
see `cacheSet`). -/
def moveToEnd {α : Type} (l : List (String × α)) (k : String) : List (String × α) :=
  match l.lookup k with
  | some v => eraseKey l k ++ [(k, v)]
  | none => l

/-! ### `CacheService.compute_cache_key` (src/backend/app/services/cache.py, lines 27-70)

The digest is modelled by its preimage: the concatenation
`image_bytes + model_id + str(top_k_preds) + str(top_k_cam) + layers_str
 + cam_layer_mode + str(feature_map_limit)`. -/

/-- Code-point lexicographic comparison of byte lists — the order Python's
`sorted` uses on `str` values. -/
def bytesLe : List Nat → List Nat → Bool
  | [], _ => true
  | _ :: _, [] => false
  | a :: as, b :: bs => if a < b then true else if b < a then false else bytesLe as bs

/-- Python's `<=` on strings: code-point lexicographic. -/
def strLe (s t : String) : Prop := bytesLe (strBytes s) (strBytes t) = true

instance : DecidableRel strLe := fun _ _ => inferInstanceAs (Decidable (_ = true))

/-- Python's `sorted` on a list of strings (code-point lexicographic order). -/
def pySorted (l : List String) : List String :=
  l.insertionSort strLe

/-- `compute_cache_key`: the byte string the code feeds to SHA-256
(the digest is modelled by its preimage, see the header comment).
`cam_layers = none` is Python's `None`, replaced by the default layer list. -/
def compute_cache_key (image_bytes : List Nat) (model_id : String)
    (top_k_preds : Nat := 5) (top_k_cam : Nat := 1)
    (cam_layers : Option (List String) := none)
    (cam_layer_mode : String := "fast") (feature_map_limit : Nat := 16) :
    List Nat :=
  let cam_layers' := cam_layers.getD ["conv1", "layer1", "layer2", "layer3", "layer4"]
  let sorted_layers := pySorted cam_layers'
  let layers_str := String.intercalate "," sorted_layers
  image_bytes ++ strBytes model_id ++ strBytes (toString top_k_preds) ++
    strBytes (toString top_k_cam) ++ strBytes layers_str ++
    strBytes cam_layer_mode ++ strBytes (toString feature_map_limit)

/-- The cache key `JobService.create_job` looks up before queueing
(src/backend/app/jobs/service.py, line 65).  The call passes the keyword
`top_k=top_k`, which `compute_cache_key` does not accept (its parameters are
`top_k_preds` and `top_k_cam`) — in Python this raises `TypeError`.  We model
the intended binding `top_k_cam := top_k` charitably; the key mismatch proved
below is independent of that repair. -/
def submissionLookupKey (image_bytes : List Nat) (model_id : String)
    (top_k : Nat) (cam_layers : List String) : List Nat :=
  compute_cache_key image_bytes model_id 5 top_k (some cam_layers)

/-- The cache key the worker stores the result under on success
(src/backend/app/jobs/service.py, line 400):
`cache_service.compute_cache_key(image_bytes, model_id)` — every other
parameter left at its default. -/
def workerStoreKey (image_bytes : List Nat) (model_id : String) : List Nat :=
  compute_cache_key image_bytes model_id

/-! ### Rational-number helpers for the tensor arithmetic -/

/-- Sum of a list of rationals. -/
def qsum (l : List ℚ) : ℚ := l.foldl (· + ·) 0

/-- `np.mean` / `torch.mean` of a flattened slice. -/
def qmean (l : List ℚ) : ℚ := qsum l / l.length

/-- `np.min` of a non-empty array (0 on the empty list, which the code never hits). -/
def qlistMin : List ℚ → ℚ
  | [] => 0
  | x :: xs => xs.foldl min x

/-- `np.max` of a non-empty array (0 on the empty list, which the code never hits). -/
def qlistMax : List ℚ → ℚ
  | [] => 0
  | x :: xs => xs.foldl max x

/-- The fixed epsilon `1e-6` used by the dynamic-range tests in
`feature_maps.py` (line 74) and `gradcam.py` (lines 183, 338). -/
def epsFM : ℚ := 1 / 1000000

/-! ### `apply_colormap` (src/backend/app/inspect/gradcam.py, lines 364-391)

Per-pixel channel values for a normalized saliency `s ∈ [0,1]`.
`(... * 255).astype(np.uint8)` truncates; on the non-negative values produced
here that is `Int.floor`. -/

/-- Red channel: `(heatmap * 255).astype(np.uint8)` (line 383). -/
def colormapRed (s : ℚ) : ℤ := ⌊s * 255⌋

/-- Green channel: `(np.abs(heatmap - 0.5) * 2 * 255).astype(np.uint8)` (line 386). -/
def colormapGreen (s : ℚ) : ℤ := ⌊|s - 1/2| * 2 * 255⌋

/-- Blue channel: `((1 - heatmap) * 255).astype(np.uint8)` (line 389). -/
def colormapBlue (s : ℚ) : ℤ := ⌊(1 - s) * 255⌋

/-- One RGB pixel of `apply_colormap`. -/
def apply_colormap (s : ℚ) : ℤ × ℤ × ℤ :=
  (colormapRed s, colormapGreen s, colormapBlue s)

/-! ### Channel normalization in `save_feature_maps`
(src/backend/app/inspect/feature_maps.py, lines 70-81)

A channel's 2-D slice is modelled flattened as a `List ℚ`.  The code computes
`normalized` (full-range rescale, or a constant fallback), then
`np.clip(normalized, 0, 255).astype(np.uint8)`. -/

/-- Lines 71-81 of feature_maps.py, for one channel. -/
def normalizeChannel (c : List ℚ) : List ℤ :=
  let channel_min := qlistMin c
  let channel_max_val := qlistMax c
  let normalized : List ℚ :=
    if channel_max_val - channel_min > epsFM then
      c.map (fun x => (x - channel_min) / (channel_max_val - channel_min) * 255)
    else
      if channel_max_val < epsFM then c.map (fun _ => 0) else c.map (fun _ => 255)
  normalized.map (fun x => ⌊min 255 (max 0 x)⌋)

/-! ### Tensors

`torch.Tensor` values are modelled as a shape plus row-major flattened data,
which is what the indexing and reductions in the code use. -/

/-- An n-dimensional array: shape and row-major data. -/
structure NDArr where
  shape : List Nat
  data : List ℚ
deriving DecidableEq, Repr

/-- `tensor.ndim`. -/
def NDArr.ndim (t : NDArr) : Nat := t.shape.length

/-- `tensor.squeeze(0)`: drops dimension 0 when it has size 1, else identity. -/
def NDArr.squeeze0 (t : NDArr) : NDArr :=
  if t.shape.head? = some 1 then { shape := t.shape.tail, data := t.data } else t

/-- Row-major slice `t[c]` of a rank-3 tensor `[C, H, W]`, flattened. -/
def channelData (t : NDArr) (c : Nat) : List ℚ :=
  let hw := (t.shape.drop 1).prod
  (t.data.drop (c * hw)).take hw

/-- Mean activation of channel `c` of a captured `[1, C, H, W]` tensor
(`torch.mean(activations, dim=(1, 2))` after `squeeze(0)`). -/
def channelMeanOf (t : NDArr) (c : Nat) : ℚ :=
  qmean (channelData t.squeeze0 c)

/-- Max of channel `c` (the manifest's `max` entry). -/
def channelMaxOf (t : NDArr) (c : Nat) : ℚ :=
  qlistMax (channelData t.squeeze0 c)

/-! ### `torch.topk` -/

/-- Indices of the `k` largest entries of `vals`, by decreasing value
(`torch.topk(vals, k, largest=True)`; tie order is unspecified in the source
and the claims do not depend on it). -/
def topkIndices (vals : List ℚ) (k : Nat) : List Nat :=
  ((List.range vals.length).insertionSort
    (fun i j => vals.getD j 0 ≤ vals.getD i 0)).take k

/-- The sorted index list inside `topkIndices`. -/
def sortedIdxByVal (vals : List ℚ) : List Nat :=
  (List.range vals.length).insertionSort (fun i j => vals.getD j 0 ≤ vals.getD i 0)

/-! ### `save_feature_maps` (src/backend/app/inspect/feature_maps.py, lines 17-108)

Returns the manifest: per selected channel its original index, mean, max, and
the grayscale image bytes it writes (the PNG pixel values, via
`normalizeChannel`).  Disk paths are elided. -/

/-- One manifest entry of `save_feature_maps`. -/
structure FeatureMapEntry where
  channel_index : Nat
  mean : ℚ
  max : ℚ
  image : List ℤ
deriving DecidableEq, Repr

/-- `save_feature_maps(activation_tensor, ..., top_k)`. -/
def save_feature_maps (activation_tensor : NDArr) (top_k : Nat) : List FeatureMapEntry :=
  let activations := activation_tensor.squeeze0
  let num_channels := activations.shape.headD 0
  let k := min top_k num_channels
  let channel_means := (List.range num_channels).map
    (fun c => qmean (channelData activations c))
  let top_indices := topkIndices channel_means k
  top_indices.map (fun c =>
    { channel_index := c
      mean := qmean (channelData activations c)
      max := qlistMax (channelData activations c)
      image := normalizeChannel (channelData activations c) })

/-- The layer filter of `JobService.process_job` (src/backend/app/jobs/service.py,
lines 261-270): a hooked layer gets feature-map treatment exactly when its
activation was captured and has `ndim == 4`. -/
def layersForFeatureMaps (layer_paths : List String)
    (activations_dict : List (String × NDArr)) : List String :=
  layer_paths.filter (fun l =>
    match activations_dict.lookup l with
    | none => false
    | some t => t.ndim = 4)

/-! ### Prediction top-k (src/backend/app/jobs/service.py, lines 227-232 and 357-365)

`prediction_top_k = max(top_k, 5)`;
`torch.topk(probs[0], k=min(prediction_top_k, probs.shape[1]))`;
the `prediction_classes` list zips the resulting indices and values. -/

/-- The `prediction_classes` list built by `process_job` (class ids paired with
probabilities; the display-name lookup does not change the length). -/
def predictionClasses (probs : List ℚ) (top_k : Nat) : List (Nat × ℚ) :=
  let prediction_top_k := max top_k 5
  let k := min prediction_top_k probs.length
  (topkIndices probs k).map (fun i => (i, probs.getD i 0))

/-! ### Model cache: `load_model` (src/backend/app/models/loaders.py, lines 53-111)

The `OrderedDict` is an association list, head = oldest.  The Model Evaluation
Capability (registry lookup + torchvision constructor) is a parameter
`mk : String → Option M`; `none` models the `ValueError` raised for an
unknown/unsupported model id (raised before the cache is touched). -/

/-- `load_model(model_id)` against cache `cache` with capacity `cache_max`;
returns the model and the updated cache. -/
def load_model {M : Type} (mk : String → Option M) (cache_max : Nat)
    (cache : List (String × M)) (model_id : String) :
    Except String (M × List (String × M)) :=
  match cache.lookup model_id with
  | some m => .ok (m, moveToEnd cache model_id)
  | none =>
    match mk model_id with
    | none => .error ("Unsupported model_id: " ++ model_id)
    | some m =>
      let c1 := moveToEnd (cache ++ [(model_id, m)]) model_id
      let c2 := if c1.length > cache_max then c1.tail else c1
      .ok (m, c2)

/-! ### Result cache: `CacheService.get` / `CacheService.set`
(src/backend/app/services/cache.py, lines 72-114)

`set` first handles the hit/insert-and-maybe-evict cases, then unconditionally
runs `self._cache.move_to_end(cache_key)` — which raises `KeyError` when the
key is no longer present. -/

/-- `CacheService.get(cache_key)`: value (or `None`) and refreshed cache. -/
def cacheGet {V : Type} (cache : List (String × V)) (cache_key : String) :
    Option V × List (String × V) :=
  match cache.lookup cache_key with
  | some v => (some v, moveToEnd cache cache_key)
  | none => (none, cache)

/-- `CacheService.set(cache_key, value)` with capacity `max_items`.
Returns the raised exception (if any) together with the cache as the method
leaves it — the mutations before the final `move_to_end` have already
happened when that call raises `KeyError`. -/
def cacheSet {V : Type} (max_items : Nat) (cache : List (String × V))
    (cache_key : String) (value : V) : Option String × List (String × V) :=
  let c1 :=
    if (cache.lookup cache_key).isSome then
      moveToEnd cache cache_key
    else
      let inserted := cache ++ [(cache_key, value)]
      if inserted.length > max_items then inserted.tail else inserted
  if (c1.lookup cache_key).isSome then (none, moveToEnd c1 cache_key)
  else (some ("KeyError: " ++ cache_key), c1)

/-! ### Job state machine (src/backend/app/jobs/service.py)

The pipeline body of `process_job` (storage writes, model load, preprocessing,
forward pass, capture, rendering) is summarized by its outcome: the
`JobResult` it builds, or the exception it raises.  `process_job` maps that
outcome to the job-map/side-table updates the code performs, including the
`finally` cleanup; `workerLoop` is `_worker_loop` over a queue of jobs with
their outcomes. -/

/-- `JobStatus` (src/backend/app/jobs/models.py). -/
inductive JobStatus where
  | queued
  | running
  | succeeded
  | failed
deriving DecidableEq, Repr

/-- `JobResult` (payload fields irrelevant to the claims are summarized by the
prediction list and an opaque assets tag). -/
structure JobResult where
  predictionTopk : List (Nat × ℚ)
  assetsTag : Nat
deriving DecidableEq, Repr

/-- `JobRecord` (src/backend/app/jobs/models.py). -/
structure JobRecord where
  job_id : String
  model_id : String
  status : JobStatus
  progress : Nat
  message : String
  result : Option JobResult
deriving DecidableEq, Repr

/-- The mutable state of `JobService`: the job map and the two temporary
side tables (`_job_data`, `_job_params`). -/
structure JobServiceState where
  jobs : List (String × JobRecord)
  jobData : List (String × List Nat)
  jobParams : List (String × (Nat × List String))
deriving DecidableEq, Repr

/-- Apply `f` to the record stored under `job_id` (the in-place mutation of
the looked-up `JobRecord`). -/
def updateJob (s : JobServiceState) (job_id : String) (f : JobRecord → JobRecord) :
    JobServiceState :=
  { s with jobs := s.jobs.map (fun kv => if kv.1 = job_id then (kv.1, f kv.2) else kv) }

/-- The `finally` block of `process_job` (lines 415-419): pop the job's bytes
and parameters. -/
def cleanupJob (s : JobServiceState) (job_id : String) : JobServiceState :=
  { s with
    jobData := eraseKey s.jobData job_id
    jobParams := eraseKey s.jobParams job_id }

/-- Outcome of the pipeline body of `process_job`: either the built result or
the text of the exception it raised. -/
inductive PipelineOutcome where
  | ok (r : JobResult)
  | exc (msg : String)
deriving DecidableEq, Repr

/-- `process_job(job_id)` (src/backend/app/jobs/service.py, lines 136-419).
`not image_bytes` in Python is true for both a missing and an empty byte
string. -/
def processJob (s : JobServiceState) (job_id : String) (outcome : PipelineOutcome) :
    JobServiceState :=
  match s.jobs.lookup job_id with
  | none => cleanupJob s job_id
  | some _ =>
    let imageOk := match s.jobData.lookup job_id with
      | none => false
      | some b => b ≠ []
    if imageOk = false then
      cleanupJob (updateJob s job_id (fun j =>
        { j with progress := 0, message := "Error: Image data not found",
                 status := .failed })) job_id
    else
      match outcome with
      | .ok r =>
        cleanupJob (updateJob s job_id (fun j =>
          { j with status := .succeeded, progress := 100,
                   message := "Job completed successfully", result := some r })) job_id
      | .exc e =>
        cleanupJob (updateJob s job_id (fun j =>
          { j with status := .failed, message := "Job failed: " ++ e,
                   progress := 0 })) job_id

/-- `_worker_loop` (lines 421-443): dequeue, stop on the shutdown sentinel,
otherwise run `process_job` (whose exceptions are all caught internally) and
continue with the rest of the queue. -/
def workerLoop (s : JobServiceState) (queue : List (String × PipelineOutcome)) :
    JobServiceState :=
  match queue with
  | [] => s
  | (job_id, outcome) :: rest =>
    if job_id = "shutdown_signal" then s
    else workerLoop (processJob s job_id outcome) rest

/-! ### Multi-layer Grad-CAM: `generate_gradcam_multilayer`
(src/backend/app/inspect/gradcam.py, lines 511-714)

Layer resolution (`get_layer_by_path`) is a boolean parameter; the captured
activation/gradient dictionaries are inputs (they are filled by the
forward/backward passes of the external model runtime).  The per-pair body is
the pure CAM computation plus the overlay path; its two explicit failure
modes are the `raise ValueError(...)` for a missing capture. -/

/-- `_compute_cam_from_activations_gradients` (lines 304-343), specialized to
the batch-1 rank-4 captures the pipeline produces: channel weights are the
spatial means of the gradient, the CAM is the ReLU of the weighted channel
sum, min-max normalized with the `1e-6` guard (constant maps become all-zero).
Returns the `[H*W]`-flattened normalized CAM. -/
def computeCamFromActsGrads (activations gradients : NDArr) : List ℚ :=
  let acts := activations.squeeze0
  let grads := gradients.squeeze0
  let numC := acts.shape.headD 0
  let hw := (acts.shape.drop 1).prod
  let weights := (List.range numC).map (fun c => qmean (channelData grads c))
  let cam := (List.range hw).map (fun p =>
    qsum ((List.range numC).map (fun c =>
      weights.getD c 0 * (channelData acts c).getD p 0)))
  let cam := cam.map (fun x => max 0 x)
  let cam_min := qlistMin cam
  let cam_max := qlistMax cam
  if cam_max - cam_min > epsFM then
    cam.map (fun x => (x - cam_min) / (cam_max - cam_min))
  else
    cam.map (fun _ => 0)

/-- One overlay entry of the multi-layer result (`{"layer": ..., "url": ...}`);
`camPixels` records the normalized saliency rendered into the PNG. -/
structure Overlay where
  layer : String
  url : String
  camPixels : List ℚ
deriving DecidableEq, Repr

/-- Per-class entry of the multi-layer result. -/
structure GradcamClass where
  class_id : Nat
  class_name : String
  prob : ℚ
  overlays : List Overlay
deriving DecidableEq, Repr

/-- The multi-layer Grad-CAM result dictionary. -/
structure MLResult where
  top_k : Nat
  classes : List GradcamClass
  layers : List String
  warnings : Option (List String)
deriving DecidableEq, Repr

/-- The warning string appended at gradcam.py line 676. -/
def camWarnMsg (class_id : Nat) (class_name : String) (layer : String)
    (err : String) : String :=
  "Failed to generate CAM for class " ++ toString class_id ++ " (" ++ class_name
    ++ ") at layer " ++ layer ++ ": " ++ err

/-- The body of the per-(class, layer) `try` block (lines 624-673): missing
captures raise; otherwise the CAM is computed and the overlay saved under
`STORAGE_DIR/{job_id}/gradcam/{class_id}/{layer_name}.png`. -/
def processPair (job_id : String) (activations_dict gradients_dict : List (String × NDArr))
    (class_id : Nat) (layer_name : String) : Except String Overlay :=
  match activations_dict.lookup layer_name with
  | none => .error ("Activations not captured for layer " ++ layer_name)
  | some a =>
    match gradients_dict.lookup layer_name with
    | none => .error ("Gradients not captured for layer " ++ layer_name)
    | some g =>
      .ok { layer := layer_name
            url := "/static/" ++ job_id ++ "/gradcam/" ++ toString class_id
                     ++ "/" ++ layer_name ++ ".png"
            camPixels := computeCamFromActsGrads a g }

/-- The body of the per-layer loop at gradcam.py lines 623-679: a successful
pair appends its overlay, a failed pair appends its warning instead. -/
def gradcamLayerStep (job_id : String)
    (activations_dict gradients_dict : List (String × NDArr))
    (class_id : Nat) (class_name : String)
    (acc2 : List Overlay × List String) (layer_name : String) :
    List Overlay × List String :=
  match processPair job_id activations_dict gradients_dict class_id layer_name with
  | .ok ov => (acc2.1 ++ [ov], acc2.2)
  | .error e => (acc2.1, acc2.2 ++ [camWarnMsg class_id class_name layer_name e])

/-- The body of the per-class loop at gradcam.py lines 606-696: overlays start
empty for each class, warnings accumulate across classes. -/
def gradcamClassStep (job_id : String) (cam_layers : List String)
    (activations_dict gradients_dict : List (String × NDArr))
    (acc : List GradcamClass × List String) (cl : Nat × String × ℚ) :
    List GradcamClass × List String :=
  let inner := cam_layers.foldl
    (gradcamLayerStep job_id activations_dict gradients_dict cl.1 cl.2.1) ([], acc.2)
  (acc.1 ++ [{ class_id := cl.1, class_name := cl.2.1, prob := cl.2.2,
               overlays := inner.1 }], inner.2)

/-- `generate_gradcam_multilayer`.  `top_classes` is the
`zip(top_indices, top_probs)` of the forward pass (id, name, probability);
`resolves l` is whether `get_layer_by_path(model, l)` succeeds. -/
def generate_gradcam_multilayer (job_id : String) (cam_layers : List String)
    (resolves : String → Bool) (top_k : Nat)
    (top_classes : List (Nat × String × ℚ))
    (activations_dict gradients_dict : List (String × NDArr)) :
    Except String MLResult :=
  let layer_modules := cam_layers.filter resolves
  if layer_modules = [] then
    .error "No valid layers found in cam_layers"
  else
    let res := top_classes.foldl
      (gradcamClassStep job_id cam_layers activations_dict gradients_dict) ([], [])
    .ok { top_k := top_k, classes := res.1, layers := cam_layers,
          warnings := if res.2 = [] then none else some res.2 }

/-- The per-class output entry `generate_gradcam_multilayer` builds when every
successful (class, layer) pair keeps its overlay: exactly the pairs whose
`processPair` succeeds, in layer order. -/
def expectedClassEntry (job_id : String) (cam_layers : List String)
    (activations_dict gradients_dict : List (String × NDArr))
    (cl : Nat × String × ℚ) : GradcamClass :=
  { class_id := cl.1, class_name := cl.2.1, prob := cl.2.2,
    overlays := cam_layers.filterMap
      (fun l => (processPair job_id activations_dict gradients_dict cl.1 l).toOption) }

/-- The warning strings of one class: exactly the failed (class, layer) pairs,
in layer order. -/
def expectedClassWarnings (job_id : String) (cam_layers : List String)
    (activations_dict gradients_dict : List (String × NDArr))
    (cl : Nat × String × ℚ) : List String :=
  cam_layers.filterMap (fun l =>
    match processPair job_id activations_dict gradients_dict cl.1 l with
    | .ok _ => none
    | .error e => some (camWarnMsg cl.1 cl.2.1 l e))

/-! ## Theorems -/

/-! ### Order lemmas for the code-point lexicographic comparison -/

theorem bytesLe_total : ∀ a b : List Nat, bytesLe a b = true ∨ bytesLe b a = true := by
  intro a
  induction a with
  | nil => intro b; left; rfl
  | cons x xs ih =>
    intro b
    cases b with
    | nil => right; rfl
    | cons y ys =>
      simp only [bytesLe]
      rcases Nat.lt_trichotomy x y with h | h | h
      · left; simp [h]
      · subst h; simpa [Nat.lt_irrefl] using ih ys
      · right; simp [h, Nat.lt_asymm h]

theorem bytesLe_trans : ∀ a b c : List Nat,
    bytesLe a b = true → bytesLe b c = true → bytesLe a c = true := by
  intro a
  induction a with
  | nil => intro b c _ _; rfl
  | cons x xs ih =>
    intro b c hab hbc
    cases b with
    | nil => simp [bytesLe] at hab
    | cons y ys =>
      cases c with
      | nil => simp [bytesLe] at hbc
      | cons z zs =>
        simp only [bytesLe] at hab hbc ⊢
        by_cases hxy : x < y
        · by_cases hyz : y < z
          · simp [Nat.lt_trans hxy hyz]
          · by_cases hzy : z < y
            · simp [bytesLe, hyz, hzy] at hbc
            · have : y = z := Nat.le_antisymm (Nat.le_of_not_lt hzy) (Nat.le_of_not_lt hyz)
              subst this; simp [hxy]
        · by_cases hyx : y < x
          · simp [bytesLe, hxy, hyx] at hab
          · have : x = y := Nat.le_antisymm (Nat.le_of_not_lt hyx) (Nat.le_of_not_lt hxy)
            subst this
            simp only [Nat.lt_irrefl, if_false] at hab
            by_cases hyz : x < z
            · simp [hyz]
            · by_cases hzy : z < x
              · simp [bytesLe, hyz, hzy] at hbc
              · have : x = z := Nat.le_antisymm (Nat.le_of_not_lt hzy) (Nat.le_of_not_lt hyz)
                subst this
                simp only [Nat.lt_irrefl, if_false] at hab hbc ⊢
                exact ih ys zs hab hbc

theorem bytesLe_antisymm : ∀ a b : List Nat,
    bytesLe a b = true → bytesLe b a = true → a = b := by
  intro a
  induction a with
  | nil =>
    intro b _ hba
    cases b with
    | nil => rfl
    | cons y ys => simp [bytesLe] at hba
  | cons x xs ih =>
    intro b hab hba
    cases b with
    | nil => simp [bytesLe] at hab
    | cons y ys =>
      simp only [bytesLe] at hab hba
      by_cases hxy : x < y
      · simp [hxy, Nat.lt_asymm hxy] at hba
      · by_cases hyx : y < x
        · simp [hyx, Nat.lt_asymm hyx] at hab
        · have hxy' : x = y := Nat.le_antisymm (Nat.le_of_not_lt hyx) (Nat.le_of_not_lt hxy)
          subst hxy'
          simp only [Nat.lt_irrefl, if_false] at hab hba
          rw [ih ys hab hba]

theorem strBytes_injective : Function.Injective strBytes := by
  intro s t h
  have hc : s.toList = t.toList := by
    refine List.map_injective_iff.mpr ?_ h
    intro a b hab
    exact Char.ext (UInt32.ext hab)
  cases s; cases t
  simpa [String.toList] using congrArg String.mk hc

theorem strLe_isTotal : IsTotal String strLe :=
  ⟨fun s t => bytesLe_total (strBytes s) (strBytes t)⟩

theorem strLe_isTrans : IsTrans String strLe :=
  ⟨fun s t u => bytesLe_trans (strBytes s) (strBytes t) (strBytes u)⟩

theorem strLe_isAntisymm : IsAntisymm String strLe :=
  ⟨fun _ _ hst hts => strBytes_injective (bytesLe_antisymm _ _ hst hts)⟩

/-- `sorted` depends only on the multiset of strings. -/
theorem pySorted_perm_invariant {L L' : List String} (h : L.Perm L') :
    pySorted L = pySorted L' := by
  haveI := strLe_isTotal
  haveI := strLe_isTrans
  haveI := strLe_isAntisymm
  exact List.eq_of_perm_of_sorted
    ((L.perm_insertionSort strLe).trans (h.trans (L'.perm_insertionSort strLe).symm))
    (List.sorted_insertionSort strLe L) (List.sorted_insertionSort strLe L')

/-- C7: the Result Cache fingerprint is order-independent over the layer
list: with image bytes, model id and all other parameters held fixed,
permuting the explanation layer list does not change the cache key
(`compute_cache_key` sorts the layer list before hashing). -/
theorem C7_cache_key_layer_order_independent
    (image_bytes : List Nat) (model_id : String) (top_k_preds top_k_cam : Nat)
    (L L' : List String) (cam_layer_mode : String) (feature_map_limit : Nat)
    (h : L.Perm L') :
    compute_cache_key image_bytes model_id top_k_preds top_k_cam (some L)
        cam_layer_mode feature_map_limit
      = compute_cache_key image_bytes model_id top_k_preds top_k_cam (some L')
        cam_layer_mode feature_map_limit := by
  simp only [compute_cache_key, Option.getD]
  rw [pySorted_perm_invariant h]

/-- Witness for C7 at the spec's own example: `["a","b"]` and `["b","a"]`
fingerprint identically. -/
theorem C7_cache_key_layer_order_independent_witness :
    (["a", "b"] : List String).Perm ["b", "a"] ∧
      compute_cache_key [7] "resnet18" 5 3 (some ["a", "b"]) "fast" 16
        = compute_cache_key [7] "resnet18" 5 3 (some ["b", "a"]) "fast" 16 :=
  ⟨List.Perm.swap "b" "a" [],
   C7_cache_key_layer_order_independent [7] "resnet18" 5 3 ["a", "b"] ["b", "a"]
     "fast" 16 (List.Perm.swap "b" "a" [])⟩

/-- C1 (code bug): the cache key `create_job` looks up at submission differs
from the key the worker stores the completed result under, already at a
plain submission (empty image, `model_id = "resnet18"`, `top_k = 3`,
`cam_layers = ["layer4"]`): the store call
`compute_cache_key(image_bytes, model_id)` leaves `top_k_cam` and
`cam_layers` at their defaults.  (On top of that, the lookup call itself
passes the nonexistent keyword `top_k=` and raises `TypeError` in Python;
`submissionLookupKey` models the intended binding.)  So a second identical
submission misses the cache instead of returning the cached SUCCEEDED job. -/
theorem C1_submission_key_ne_store_key :
    submissionLookupKey [] "resnet18" 3 ["layer4"] ≠ workerStoreKey [] "resnet18" := by
  decide

/-- C2 (code bug): the green channel of `apply_colormap` is
`abs(s - 0.5) * 2 * 255`: it is 0 at mid-saliency `s = 1/2` and 255 at both
extremes — a V shape attaining its minimum at `s = 1/2`, not its maximum
(the code's own comment says "inverted U shape", the spec says "green peaks
at mid-saliency"). -/
theorem C2_colormap_green_min_at_mid :
    colormapGreen (1/2) = 0 ∧ colormapGreen 0 = 255 ∧ colormapGreen 1 = 255 ∧
      (apply_colormap (1/2)).2.1 < (apply_colormap 0).2.1 := by
  have h0 : colormapGreen (1/2) = 0 := by
    unfold colormapGreen
    rw [show |((1:ℚ)/2) - 1/2| * 2 * 255 = ((0:ℤ):ℚ) by norm_num]
    exact Int.floor_intCast 0
  have h1 : colormapGreen 0 = 255 := by
    unfold colormapGreen
    rw [show |((0:ℚ)) - 1/2| = 1/2 by rw [abs_sub_comm]; norm_num]
    rw [show ((1:ℚ)/2) * 2 * 255 = ((255:ℤ):ℚ) by norm_num]
    exact Int.floor_intCast 255
  have h2 : colormapGreen 1 = 255 := by
    unfold colormapGreen
    rw [show |((1:ℚ)) - 1/2| = 1/2 by norm_num]
    rw [show ((1:ℚ)/2) * 2 * 255 = ((255:ℤ):ℚ) by norm_num]
    exact Int.floor_intCast 255
  refine ⟨h0, h1, h2, ?_⟩
  simp only [apply_colormap]
  rw [h0, h1]
  decide

/-- C8 (code bug): a Result Cache with capacity 0 does not silently disable
caching: `set` inserts the entry, immediately evicts it (it is the oldest),
and then `move_to_end` on the now-absent key raises `KeyError` — the cache is
left empty but the call raises instead of returning; `get` does miss for
every key. -/
theorem C8_capacity_zero_set_raises :
    cacheSet 0 ([] : List (String × Nat)) "k" 7 = (some "KeyError: k", []) ∧
      (∀ key : String, (cacheGet ([] : List (String × Nat)) key).1 = none) := by
  constructor
  · rfl
  · intro key
    simp [cacheGet, List.lookup]

/-! ### C10: prediction list length -/

/-- `torch.topk` returns exactly `min k n` indices in this embedding. -/
theorem topkIndices_length (vals : List ℚ) (k : Nat) :
    (topkIndices vals k).length = min k vals.length := by
  simp only [topkIndices, List.length_take]
  rw [((List.range vals.length).perm_insertionSort
    (fun i j => vals.getD j 0 ≤ vals.getD i 0)).length_eq, List.length_range]

/-- C10: for a requested explanation top-k between 1 and 5 on a model whose
output has at least `max(top_k, 5)` classes, the prediction list built by
`process_job` has exactly `max(top_k, 5)` entries — i.e. it is padded to five
classes even when fewer were requested for explanation. -/
theorem C10_prediction_padded_to_five (probs : List ℚ) (top_k : Nat)
    (h1 : 1 ≤ top_k) (h5 : top_k ≤ 5) (hlen : max top_k 5 ≤ probs.length) :
    (predictionClasses probs top_k).length = max top_k 5 ∧ max top_k 5 = 5 := by
  constructor
  · simp only [predictionClasses, List.length_map, topkIndices_length]
    omega
  · omega

/-- Witness for C10: ten class probabilities, `top_k = 3` — the prediction
list has five entries. -/
theorem C10_prediction_padded_to_five_witness :
    1 ≤ 3 ∧ 3 ≤ 5 ∧ max 3 5 ≤ 10 ∧
      ((predictionClasses
          [1/20, 2/20, 3/20, 1/20, 2/20, 3/20, 1/20, 2/20, 3/20, 2/20] 3).length
        = max 3 5 ∧ max 3 5 = 5) :=
  ⟨by decide, by decide, by decide,
   C10_prediction_padded_to_five _ 3 (by decide) (by decide) (by decide)⟩

/-! ### C3: failure handling in `process_job` and the worker loop -/

theorem lookup_eq_none_of_not_mem_keys {α : Type} (l : List (String × α)) (k : String)
    (h : k ∉ keys l) : l.lookup k = none := by
  induction l with
  | nil => rfl
  | cons kv rest ih =>
    obtain ⟨k', v⟩ := kv
    simp only [keys, List.map_cons, List.mem_cons, not_or] at h
    have hbeq : (k == k') = false := beq_eq_false_iff_ne.mpr h.1
    simp only [List.lookup, hbeq]
    exact ih (by simpa [keys] using h.2)

theorem lookup_eraseKey_self {α : Type} (l : List (String × α)) (k : String)
    (h : (keys l).Nodup) : (eraseKey l k).lookup k = none := by
  induction l with
  | nil => rfl
  | cons kv rest ih =>
    obtain ⟨k', v⟩ := kv
    simp only [keys, List.map_cons, List.nodup_cons] at h
    by_cases hk : k' = k
    · rw [show eraseKey ((k', v) :: rest) k = rest by simp [eraseKey, hk]]
      exact lookup_eq_none_of_not_mem_keys rest k (hk ▸ h.1)
    · rw [show eraseKey ((k', v) :: rest) k = (k', v) :: eraseKey rest k by
        simp [eraseKey, hk]]
      have hbeq : (k == k') = false := beq_eq_false_iff_ne.mpr (Ne.symm hk)
      simp only [List.lookup, hbeq]
      exact ih h.2

theorem lookup_updateJob_self (s : JobServiceState) (job_id : String)
    (f : JobRecord → JobRecord) :
    (updateJob s job_id f).jobs.lookup job_id = (s.jobs.lookup job_id).map f := by
  show (s.jobs.map _).lookup job_id = _
  induction s.jobs with
  | nil => rfl
  | cons kv rest ih =>
    obtain ⟨k', v⟩ := kv
    by_cases hk : k' = job_id
    · subst hk
      have hmap : (if ((k', v) : String × JobRecord).1 = k'
          then (((k', v) : String × JobRecord).1, f ((k', v) : String × JobRecord).2)
          else ((k', v) : String × JobRecord)) = (k', f v) := by simp
      rw [List.map_cons]
      rw [hmap]
      simp [List.lookup]
    · have hbeq : (job_id == k') = false := beq_eq_false_iff_ne.mpr (Ne.symm hk)
      simp only [List.map_cons]
      rw [show (if ((k', v) : String × JobRecord).1 = job_id
            then (((k', v) : String × JobRecord).1, f ((k', v) : String × JobRecord).2)
            else ((k', v) : String × JobRecord)) = (k', v) by simp [hk]]
      simp only [List.lookup, hbeq]
      exact ih

/-- C3: if the pipeline body of `process_job` raises with text `e`, the job is
marked FAILED with message `"Job failed: " ++ e` (carrying the exception
text) and progress 0; the job's temporary input bytes and parameters are
cleared — as they also are on success; and the worker loop does not stop: it
goes on to process the rest of the queue. -/
theorem C3_failure_marks_failed_cleans_continues
    (s : JobServiceState) (job_id e : String) (jr : JobRecord) (bytes : List Nat)
    (rest : List (String × PipelineOutcome)) (r : JobResult)
    (hjr : s.jobs.lookup job_id = some jr)
    (hb : s.jobData.lookup job_id = some bytes) (hne : bytes ≠ [])
    (hndd : (keys s.jobData).Nodup) (hndp : (keys s.jobParams).Nodup)
    (hsig : job_id ≠ "shutdown_signal") :
    ((processJob s job_id (.exc e)).jobs.lookup job_id
        = some { jr with status := .failed, message := "Job failed: " ++ e,
                         progress := 0 }) ∧
    (processJob s job_id (.exc e)).jobData.lookup job_id = none ∧
    (processJob s job_id (.exc e)).jobParams.lookup job_id = none ∧
    (processJob s job_id (.ok r)).jobData.lookup job_id = none ∧
    (processJob s job_id (.ok r)).jobParams.lookup job_id = none ∧
    workerLoop s ((job_id, .exc e) :: rest)
      = workerLoop (processJob s job_id (.exc e)) rest := by
  have hexc : processJob s job_id (.exc e)
      = cleanupJob (updateJob s job_id (fun j =>
          { j with status := .failed, message := "Job failed: " ++ e,
                   progress := 0 })) job_id := by
    simp [processJob, hjr, hb, hne]
  have hok : processJob s job_id (.ok r)
      = cleanupJob (updateJob s job_id (fun j =>
          { j with status := .succeeded, progress := 100,
                   message := "Job completed successfully", result := some r })) job_id := by
    simp [processJob, hjr, hb, hne]
  have cleanup_jobs : ∀ (t : JobServiceState) (k : String), (cleanupJob t k).jobs = t.jobs :=
    fun _ _ => rfl
  refine ⟨?_, ?_, ?_, ?_, ?_, ?_⟩
  · rw [hexc, cleanup_jobs, lookup_updateJob_self, hjr]
    rfl
  · rw [hexc]
    exact lookup_eraseKey_self _ _ (by simpa [updateJob, keys] using hndd)
  · rw [hexc]
    exact lookup_eraseKey_self _ _ (by simpa [updateJob, keys] using hndp)
  · rw [hok]
    exact lookup_eraseKey_self _ _ (by simpa [updateJob, keys] using hndd)
  · rw [hok]
    exact lookup_eraseKey_self _ _ (by simpa [updateJob, keys] using hndp)
  · simp [workerLoop, hsig]

/-- Witness for C3: a one-job state whose pipeline raises "boom". -/
theorem C3_failure_marks_failed_cleans_continues_witness :
    (let jr : JobRecord :=
      { job_id := "j1", model_id := "resnet18", status := .running,
        progress := 40, message := "Running forward pass", result := none }
     let s : JobServiceState :=
      { jobs := [("j1", jr)], jobData := [("j1", [1, 2, 3])],
        jobParams := [("j1", (3, ["layer4"]))] }
     ((processJob s "j1" (.exc "boom")).jobs.lookup "j1"
        = some { jr with status := .failed, message := "Job failed: " ++ "boom",
                         progress := 0 }) ∧
     (processJob s "j1" (.exc "boom")).jobData.lookup "j1" = none ∧
     (processJob s "j1" (.exc "boom")).jobParams.lookup "j1" = none ∧
     (processJob s "j1" (.ok { predictionTopk := [], assetsTag := 0 })).jobData.lookup "j1"
        = none ∧
     (processJob s "j1" (.ok { predictionTopk := [], assetsTag := 0 })).jobParams.lookup "j1"
        = none ∧
     workerLoop s [("j1", .exc "boom"), ("j2", .ok { predictionTopk := [], assetsTag := 0 })]
        = workerLoop (processJob s "j1" (.exc "boom"))
            [("j2", .ok { predictionTopk := [], assetsTag := 0 })]) :=
  C3_failure_marks_failed_cleans_continues _ "j1" "boom" _ _ _ _
    rfl rfl (by decide) (by decide) (by decide) (by decide)

/-! ### C6: model-cache LRU lemmas -/

theorem mem_keys_of_lookup_eq_some {α : Type} {l : List (String × α)} {k : String} {v : α}
    (h : l.lookup k = some v) : k ∈ keys l := by
  induction l with
  | nil => simp [List.lookup] at h
  | cons kv rest ih =>
    obtain ⟨k', v'⟩ := kv
    by_cases hk : k = k'
    · simp [keys, hk]
    · have hbeq : (k == k') = false := beq_eq_false_iff_ne.mpr hk
      simp only [List.lookup, hbeq] at h
      simp [keys, ih h, List.mem_cons]
      exact Or.inr (by simpa [keys] using ih h)

theorem lookup_append_some {α : Type} {l1 : List (String × α)} (l2 : List (String × α))
    {k : String} {v : α} (h : l1.lookup k = some v) : (l1 ++ l2).lookup k = some v := by
  induction l1 with
  | nil => simp [List.lookup] at h
  | cons kv rest ih =>
    obtain ⟨k', v'⟩ := kv
    by_cases hk : k = k'
    · subst hk
      simp only [List.lookup, beq_self_eq_true] at h ⊢
      exact h
    · have hbeq : (k == k') = false := beq_eq_false_iff_ne.mpr hk
      simp only [List.lookup, hbeq, List.cons_append] at h ⊢
      exact ih h

theorem lookup_append_none {α : Type} {l1 : List (String × α)} (l2 : List (String × α))
    {k : String} (h : l1.lookup k = none) : (l1 ++ l2).lookup k = l2.lookup k := by
  induction l1 with
  | nil => rfl
  | cons kv rest ih =>
    obtain ⟨k', v'⟩ := kv
    by_cases hk : k = k'
    · subst hk
      simp only [List.lookup, beq_self_eq_true] at h
      exact absurd h (Option.some_ne_none _)
    · have hbeq : (k == k') = false := beq_eq_false_iff_ne.mpr hk
      simp only [List.lookup, hbeq, List.cons_append] at h ⊢
      exact ih h

theorem eraseKey_append_of_not_mem {α : Type} {l1 : List (String × α)}
    (l2 : List (String × α)) {k : String} (h : k ∉ keys l1) :
    eraseKey (l1 ++ l2) k = l1 ++ eraseKey l2 k := by
  induction l1 with
  | nil => rfl
  | cons kv rest ih =>
    obtain ⟨k', v'⟩ := kv
    simp only [keys, List.map_cons, List.mem_cons, not_or] at h
    simp only [List.cons_append, eraseKey, List.append_eq]
    rw [if_neg (fun he => h.1 he.symm)]
    rw [ih (by simpa [keys] using h.2)]

theorem length_eraseKey_of_mem {α : Type} {l : List (String × α)} {k : String}
    (h : k ∈ keys l) : (eraseKey l k).length + 1 = l.length := by
  induction l with
  | nil => simp [keys] at h
  | cons kv rest ih =>
    obtain ⟨k', v'⟩ := kv
    by_cases hk : k' = k
    · simp [eraseKey, hk]
    · simp only [keys, List.map_cons, List.mem_cons] at h
      have hmem : k ∈ keys rest := by
        rcases h with h | h
        · exact absurd h.symm hk
        · simpa [keys] using h
      simp only [eraseKey, if_neg hk, List.length_cons]
      rw [← ih hmem]

theorem length_moveToEnd {α : Type} (l : List (String × α)) (k : String) :
    (moveToEnd l k).length = l.length := by
  unfold moveToEnd
  cases hl : l.lookup k with
  | none => rfl
  | some v =>
    simp only [List.length_append, List.length_singleton]
    exact length_eraseKey_of_mem (mem_keys_of_lookup_eq_some hl)

theorem keys_eraseKey_subset {α : Type} (l : List (String × α)) (k : String) :
    keys (eraseKey l k) ⊆ keys l := by
  induction l with
  | nil => simp [eraseKey]
  | cons kv rest ih =>
    obtain ⟨k', v'⟩ := kv
    by_cases hk : k' = k
    · simp only [eraseKey, if_pos hk]
      exact fun x hx => by simp [keys, List.mem_cons]; right; simpa [keys] using hx
    · simp only [eraseKey, if_neg hk, keys, List.map_cons]
      intro x hx
      rcases List.mem_cons.mp hx with h | h
      · simp [h]
      · simp only [List.mem_cons]
        exact Or.inr (ih (by simpa [keys] using h))

theorem tail_lookup_none {α : Type} {l : List (String × α)} {k : String}
    (h : l.lookup k = none) : l.tail.lookup k = none := by
  cases l with
  | nil => rfl
  | cons kv rest =>
    obtain ⟨k', v'⟩ := kv
    by_cases hk : k = k'
    · subst hk
      simp only [List.lookup, beq_self_eq_true] at h
      exact absurd h (Option.some_ne_none _)
    · have hbeq : (k == k') = false := beq_eq_false_iff_ne.mpr hk
      simp only [List.lookup, hbeq] at h
      simpa using h

/-- C6 (amended): the Model Cache (a) never holds more entries than its
capacity at the end of any `load_model`, (b) loading a (capacity+1)-th
distinct model evicts exactly the least-recently-used (oldest) entry and
keeps all others in order, and (c) when the capacity is at least 2, a cache
hit marks the entry most-recently-used, so it survives the next insertion of
a new model.  (With capacity 1 — the code's validated minimum — part (c)
fails: the sole, just re-accessed entry is also the LRU entry and is
evicted; see the counterexample.) -/
theorem C6_model_cache_lru (M : Type) (mk : String → Option M) (cap : Nat) :
    (∀ (cache : List (String × M)) (mid : String) (m : M) (cacheOut : List (String × M)),
      cache.length ≤ cap → load_model mk cap cache mid = .ok (m, cacheOut) →
      cacheOut.length ≤ cap) ∧
    (∀ (cache : List (String × M)) (mid : String) (m : M),
      1 ≤ cap → cache.length = cap → mid ∉ keys cache → mk mid = some m →
      load_model mk cap cache mid = .ok (m, cache.tail ++ [(mid, m)])) ∧
    (∀ (cache : List (String × M)) (k : String) (vk : M) (mid : String) (m : M),
      (keys cache).Nodup → 2 ≤ cap → cache.length ≤ cap →
      cache.lookup k = some vk → mid ∉ keys cache → mk mid = some m →
      ∃ cache2 cache3,
        load_model mk cap cache k = .ok (vk, cache2) ∧
        load_model mk cap cache2 mid = .ok (m, cache3) ∧
        cache3.lookup k = some vk) := by
  refine ⟨?_, ?_, ?_⟩
  · -- (a) capacity bound
    intro cache mid m cacheOut hlen hload
    unfold load_model at hload
    cases hl : cache.lookup mid with
    | some m0 =>
      rw [hl] at hload
      injection hload with h
      injection h with hm hc
      rw [← hc, length_moveToEnd]
      exact hlen
    | none =>
      rw [hl] at hload
      cases hmk : mk mid with
      | none => rw [hmk] at hload; exact absurd hload (by simp)
      | some m1 =>
        rw [hmk] at hload
        simp only at hload
        injection hload with h
        injection h with hm hc
        have hlen1 : (moveToEnd (cache ++ [(mid, m1)]) mid).length = cache.length + 1 := by
          rw [length_moveToEnd]; simp
        by_cases hgt : (moveToEnd (cache ++ [(mid, m1)]) mid).length > cap
        · rw [if_pos hgt] at hc
          rw [← hc, List.length_tail, hlen1]
          omega
        · rw [if_neg hgt] at hc
          rw [← hc]
          omega
  · -- (b) exact LRU eviction on overflow
    intro cache mid m hcap hlen hmem hmk
    have hl : cache.lookup mid = none := lookup_eq_none_of_not_mem_keys _ _ hmem
    have hlook : (cache ++ [(mid, m)]).lookup mid = some m := by
      rw [lookup_append_none _ hl]
      simp [List.lookup]
    have herase : eraseKey (cache ++ [(mid, m)]) mid = cache := by
      rw [eraseKey_append_of_not_mem _ hmem]
      simp [eraseKey]
    have hmove : moveToEnd (cache ++ [(mid, m)]) mid = cache ++ [(mid, m)] := by
      unfold moveToEnd
      rw [hlook, herase]
    unfold load_model
    rw [hl, hmk]
    simp only [hmove]
    have hgt : (cache ++ [(mid, m)]).length > cap := by
      simp only [List.length_append, List.length_singleton]
      omega
    rw [if_pos hgt]
    obtain ⟨kv0, rest, hc⟩ : ∃ kv0 rest, cache = kv0 :: rest := by
      cases cache with
      | nil => simp at hlen; omega
      | cons kv0 rest => exact ⟨kv0, rest, rfl⟩
    subst hc
    rfl
  · -- (c) re-access then insert keeps the re-accessed entry (cap ≥ 2)
    intro cache k vk mid m hnodup hcap hlen hk hmem hmk
    have hkmem : k ∈ keys cache := mem_keys_of_lookup_eq_some hk
    have hkne : mid ≠ k := fun he => hmem (he ▸ hkmem)
    -- first call: hit
    have h1 : load_model mk cap cache k = .ok (vk, moveToEnd cache k) := by
      unfold load_model
      rw [hk]
    set cache2 := moveToEnd cache k with hc2
    have hc2eq : cache2 = eraseKey cache k ++ [(k, vk)] := by
      rw [hc2]
      unfold moveToEnd
      rw [hk]
    have hlook2 : cache2.lookup k = some vk := by
      rw [hc2eq, lookup_append_none _ (lookup_eraseKey_self _ _ hnodup)]
      simp [List.lookup]
    have hlen2 : cache2.length = cache.length := length_moveToEnd cache k
    have hmem2 : mid ∉ keys cache2 := by
      rw [hc2eq]
      intro hx
      simp only [keys, List.map_append, List.mem_append] at hx
      rcases hx with hx | hx
      · exact hmem (keys_eraseKey_subset cache k hx)
      · simp at hx
        exact hkne hx
    have hl2 : cache2.lookup mid = none := lookup_eq_none_of_not_mem_keys _ _ hmem2
    have hlookc1 : (cache2 ++ [(mid, m)]).lookup mid = some m := by
      rw [lookup_append_none _ hl2]
      simp [List.lookup]
    have herase2 : eraseKey (cache2 ++ [(mid, m)]) mid = cache2 := by
      rw [eraseKey_append_of_not_mem _ hmem2]
      simp [eraseKey]
    have hmove2 : moveToEnd (cache2 ++ [(mid, m)]) mid = cache2 ++ [(mid, m)] := by
      unfold moveToEnd
      rw [hlookc1, herase2]
    have h2base : load_model mk cap cache2 mid
        = .ok (m, if (cache2 ++ [(mid, m)]).length > cap
                  then (cache2 ++ [(mid, m)]).tail else cache2 ++ [(mid, m)]) := by
      unfold load_model
      rw [hl2, hmk]
      simp only [hmove2]
    by_cases hgt : (cache2 ++ [(mid, m)]).length > cap
    · -- eviction happens; the evicted entry is the head of eraseKey cache k
      have hlen_c1 : (cache2 ++ [(mid, m)]).length = cache.length + 1 := by
        rw [List.length_append, hlen2]
        rfl
      have hlc : cache.length ≥ 2 := by omega
      have hel : (eraseKey cache k).length + 1 = cache.length := length_eraseKey_of_mem hkmem
      obtain ⟨e0, es, he⟩ : ∃ e0 es, eraseKey cache k = e0 :: es := by
        cases herr : eraseKey cache k with
        | nil =>
          exfalso
          rw [herr] at hel
          simp only [List.length_nil] at hel
          omega
        | cons e0 es => exact ⟨e0, es, rfl⟩
      refine ⟨cache2, (cache2 ++ [(mid, m)]).tail, h1, ?_, ?_⟩
      · rw [h2base, if_pos hgt]
      · have hes : es.lookup k = none :=
          tail_lookup_none (l := e0 :: es) (by rw [← he]; exact lookup_eraseKey_self _ _ hnodup)
        rw [hc2eq, he]
        show ((e0 :: (es ++ [(k, vk)])) ++ [(mid, m)]).tail.lookup k = some vk
        simp only [List.cons_append, List.tail_cons]
        have hinner : (es ++ [(k, vk)]).lookup k = some vk := by
          rw [lookup_append_none _ hes]
          simp [List.lookup]
        exact lookup_append_some _ hinner
    · refine ⟨cache2, cache2 ++ [(mid, m)], h1, ?_, ?_⟩
      · rw [h2base, if_neg hgt]
      · exact lookup_append_some _ hlook2

/-- Counterexample to C6 as stated: with capacity 1 (the smallest the code's
validator allows), re-accessing the sole cached entry "a" does not prevent
its eviction — the very next `load_model` of a new model "b" evicts "a". -/
theorem C6_counterexample_capacity_one :
    load_model (fun _ => some 0) 1 [("a", (5 : Nat))] "a" = .ok (5, [("a", 5)]) ∧
    load_model (fun _ => some 0) 1 [("a", (5 : Nat))] "b" = .ok (0, [("b", 0)]) ∧
    ([("b", (0 : Nat))].lookup "a") = none :=
  ⟨rfl, rfl, rfl⟩

/-- Witness for C6: capacity 2.  (a) a get-or-load on a full cache keeps the
size at 2; (b) loading a third distinct model "c" into `[a, b]` evicts
exactly "a"; (c) hitting "a" first, then loading "c", keeps "a". -/
theorem C6_model_cache_lru_witness :
    ([("a", (5 : Nat)), ("b", 6)].length ≤ 2 ∧
      load_model (fun _ => some 0) 2 [("a", (5 : Nat)), ("b", 6)] "c"
        = .ok (0, [("b", 6), ("c", 0)]) →
      ([("b", (6 : Nat)), ("c", 0)]).length ≤ 2) ∧
    (1 ≤ 2 ∧ [("a", (5 : Nat)), ("b", 6)].length = 2 ∧ "c" ∉ keys [("a", (5 : Nat)), ("b", 6)] →
      load_model (fun _ => some 0) 2 [("a", (5 : Nat)), ("b", 6)] "c"
        = .ok (0, [("a", (5 : Nat)), ("b", 6)].tail ++ [("c", 0)])) ∧
    (∃ cache2 cache3,
      load_model (fun _ => some 0) 2 [("a", (5 : Nat)), ("b", 6)] "a" = .ok (5, cache2) ∧
      load_model (fun _ => some (0 : Nat)) 2 cache2 "c" = .ok (0, cache3) ∧
      cache3.lookup "a" = some 5) :=
  ⟨fun h => (C6_model_cache_lru Nat (fun _ => some 0) 2).1
      [("a", 5), ("b", 6)] "c" 0 [("b", 6), ("c", 0)] h.1 h.2,
   fun h => (C6_model_cache_lru Nat (fun _ => some 0) 2).2.1
      [("a", 5), ("b", 6)] "c" 0 h.1 h.2.1 h.2.2 rfl,
   (C6_model_cache_lru Nat (fun _ => some 0) 2).2.2
      [("a", 5), ("b", 6)] "a" 5 "c" 0 (by decide) (by decide) (by decide) rfl
      (by decide) rfl⟩

/-! ### C5: per-channel min-max normalization -/

theorem foldl_min_le_init (l : List ℚ) : ∀ a : ℚ, l.foldl min a ≤ a := by
  induction l with
  | nil => intro a; exact le_refl a
  | cons x xs ih =>
    intro a
    exact le_trans (ih (min a x)) (min_le_left a x)

theorem foldl_min_le_mem (l : List ℚ) : ∀ (a x : ℚ), x ∈ l → l.foldl min a ≤ x := by
  induction l with
  | nil => intro a x hx; simp at hx
  | cons y ys ih =>
    intro a x hx
    rcases List.mem_cons.mp hx with h | h
    · subst h
      exact le_trans (foldl_min_le_init ys (min a x)) (min_le_right a x)
    · exact ih (min a y) x h

theorem foldl_min_mem_or (l : List ℚ) : ∀ a : ℚ, l.foldl min a = a ∨ l.foldl min a ∈ l := by
  induction l with
  | nil => intro a; left; rfl
  | cons y ys ih =>
    intro a
    rcases ih (min a y) with h | h
    · rcases min_choice a y with hm | hm
      · left; rw [List.foldl_cons, h, hm]
      · right; rw [List.foldl_cons, h, hm]; exact List.mem_cons_self y ys
    · right; exact List.mem_cons_of_mem y h

theorem init_le_foldl_max (l : List ℚ) : ∀ a : ℚ, a ≤ l.foldl max a := by
  induction l with
  | nil => intro a; exact le_refl a
  | cons x xs ih =>
    intro a
    exact le_trans (le_max_left a x) (ih (max a x))

theorem mem_le_foldl_max (l : List ℚ) : ∀ (a x : ℚ), x ∈ l → x ≤ l.foldl max a := by
  induction l with
  | nil => intro a x hx; simp at hx
  | cons y ys ih =>
    intro a x hx
    rcases List.mem_cons.mp hx with h | h
    · subst h
      exact le_trans (le_max_right a x) (init_le_foldl_max ys (max a x))
    · exact ih (max a y) x h

theorem foldl_max_mem_or (l : List ℚ) : ∀ a : ℚ, l.foldl max a = a ∨ l.foldl max a ∈ l := by
  induction l with
  | nil => intro a; left; rfl
  | cons y ys ih =>
    intro a
    rcases ih (max a y) with h | h
    · rcases max_choice a y with hm | hm
      · left; rw [List.foldl_cons, h, hm]
      · right; rw [List.foldl_cons, h, hm]; exact List.mem_cons_self y ys
    · right; exact List.mem_cons_of_mem y h

theorem qlistMin_le_mem {c : List ℚ} {x : ℚ} (hx : x ∈ c) : qlistMin c ≤ x := by
  cases c with
  | nil => simp at hx
  | cons y ys =>
    rcases List.mem_cons.mp hx with h | h
    · subst h; exact foldl_min_le_init ys x
    · exact foldl_min_le_mem ys y x h

theorem mem_le_qlistMax {c : List ℚ} {x : ℚ} (hx : x ∈ c) : x ≤ qlistMax c := by
  cases c with
  | nil => simp at hx
  | cons y ys =>
    rcases List.mem_cons.mp hx with h | h
    · subst h; exact init_le_foldl_max ys x
    · exact mem_le_foldl_max ys y x h

theorem qlistMin_mem {c : List ℚ} (h : c ≠ []) : qlistMin c ∈ c := by
  cases c with
  | nil => exact absurd rfl h
  | cons y ys =>
    show ys.foldl min y ∈ y :: ys
    rcases foldl_min_mem_or ys y with hm | hm
    · rw [hm]; exact List.mem_cons_self y ys
    · exact List.mem_cons_of_mem y hm

theorem qlistMax_mem {c : List ℚ} (h : c ≠ []) : qlistMax c ∈ c := by
  cases c with
  | nil => exact absurd rfl h
  | cons y ys =>
    show ys.foldl max y ∈ y :: ys
    rcases foldl_max_mem_or ys y with hm | hm
    · rw [hm]; exact List.mem_cons_self y ys
    · exact List.mem_cons_of_mem y hm

theorem getD_map {α β : Type} (f : α → β) (c : List α) (dq : α) (d : β) :
    ∀ (i : Nat), i < c.length → (c.map f).getD i d = f (c.getD i dq) := by
  induction c with
  | nil => intro i h; simp at h
  | cons y ys ih =>
    intro i h
    cases i with
    | zero => rfl
    | succ n =>
      simp only [List.map_cons, List.getD_cons_succ]
      exact ih n (by simpa using h)

theorem map_const_replicate {α β : Type} (c : List α) (b : β) :
    c.map (fun _ => b) = List.replicate c.length b := by
  induction c with
  | nil => rfl
  | cons y ys ih => simp [List.replicate, ih]

/-- The clipped-and-truncated pixel value, used on every branch of
`normalizeChannel`. -/
theorem clip_floor_bounds (v : ℚ) :
    0 ≤ (⌊min 255 (max 0 v)⌋ : ℤ) ∧ (⌊min 255 (max 0 v)⌋ : ℤ) ≤ 255 := by
  constructor
  · rw [show (0 : ℤ) = ⌊(0 : ℚ)⌋ from (Int.floor_zero).symm]
    exact Int.floor_le_floor (le_min (by norm_num) (le_max_left 0 v))
  · calc (⌊min 255 (max 0 v)⌋ : ℤ) ≤ ⌊(((255 : ℤ) : ℚ))⌋ :=
          Int.floor_le_floor (by rw [show (((255:ℤ):ℚ)) = (255:ℚ) by norm_num]
                                 exact min_le_left _ _)
      _ = 255 := Int.floor_intCast 255

/-- Counterexample to C5 as stated: the constant channel `[-1, -1]` is not
"approximately 0" (it is below `-epsilon`), yet the output is all-zero, not
all-255 — the code keys the constant branch on `max < 1e-6`, which is true
for every negative constant. -/
theorem C5_counterexample_negative_constant :
    normalizeChannel [(-1 : ℚ), -1] = [0, 0] ∧ ¬(|(-1 : ℚ)| < epsFM) ∧
      normalizeChannel [(-1 : ℚ), -1] ≠ [255, 255] := by
  have hmin : qlistMin [(-1 : ℚ), -1] = -1 := by simp [qlistMin]
  have hmax : qlistMax [(-1 : ℚ), -1] = -1 := by simp [qlistMax]
  have h0 : (⌊min (255:ℚ) (max 0 0)⌋ : ℤ) = 0 := by
    rw [max_self, min_eq_right (by norm_num : (0:ℚ) ≤ 255), Int.floor_zero]
  have hmain : normalizeChannel [(-1 : ℚ), -1] = [0, 0] := by
    simp only [normalizeChannel, hmin, hmax]
    rw [if_neg (by norm_num [epsFM]), if_pos (by norm_num [epsFM])]
    show [⌊min (255:ℚ) (max 0 0)⌋, ⌊min (255:ℚ) (max 0 0)⌋] = [0, 0]
    rw [h0]
  refine ⟨hmain, by norm_num [epsFM], ?_⟩
  rw [hmain]
  decide

/-- C5 (amended): for a channel with dynamic range above epsilon, the output
attains 255 exactly at max-valued pixels and 0 at min-valued pixels and every
pixel lies in [0, 255]; for a channel with dynamic range at most epsilon, the
output is all-zero when the channel **max** is below epsilon (in particular
for every non-positive constant) and all-255 when the max is at least epsilon
— rather than keying on "constant ≈ 0" as the claim states. -/
theorem C5_feature_map_normalization (c : List ℚ) (hne : c ≠ []) :
    (qlistMax c - qlistMin c > epsFM →
      (∀ i, i < c.length →
        (c.getD i 0 = qlistMax c → (normalizeChannel c).getD i 0 = 255) ∧
        (c.getD i 0 = qlistMin c → (normalizeChannel c).getD i 0 = 0)) ∧
      (∀ y ∈ normalizeChannel c, 0 ≤ y ∧ y ≤ 255) ∧
      255 ∈ normalizeChannel c ∧ 0 ∈ normalizeChannel c) ∧
    (¬(qlistMax c - qlistMin c > epsFM) →
      (qlistMax c < epsFM → normalizeChannel c = List.replicate c.length 0) ∧
      (¬(qlistMax c < epsFM) → normalizeChannel c = List.replicate c.length 255)) := by
  constructor
  · intro hrange
    have hpos : (0:ℚ) < qlistMax c - qlistMin c :=
      lt_trans (by norm_num [epsFM]) hrange
    have hout : normalizeChannel c
        = c.map (fun x =>
            ⌊min 255 (max 0 ((x - qlistMin c) / (qlistMax c - qlistMin c) * 255))⌋) := by
      simp only [normalizeChannel, if_pos hrange, List.map_map]
      rfl
    have hfmax : (⌊min 255 (max 0 ((qlistMax c - qlistMin c)
        / (qlistMax c - qlistMin c) * 255))⌋ : ℤ) = 255 := by
      rw [div_self (ne_of_gt hpos), one_mul,
          max_eq_right (by norm_num : (0:ℚ) ≤ 255), min_self,
          show (255:ℚ) = ((255:ℤ):ℚ) by norm_num, Int.floor_intCast]
    have hfmin : (⌊min 255 (max 0 ((qlistMin c - qlistMin c)
        / (qlistMax c - qlistMin c) * 255))⌋ : ℤ) = 0 := by
      rw [sub_self, zero_div, zero_mul, max_self,
          min_eq_right (by norm_num : (0:ℚ) ≤ 255), Int.floor_zero]
    refine ⟨?_, ?_, ?_, ?_⟩
    · intro i hi
      constructor
      · intro hmax
        rw [hout, getD_map _ c 0 0 i hi, hmax]
        exact hfmax
      · intro hmin
        rw [hout, getD_map _ c 0 0 i hi, hmin]
        exact hfmin
    · intro y hy
      rw [hout] at hy
      obtain ⟨x, _, hfx⟩ := List.mem_map.mp hy
      rw [← hfx]
      exact clip_floor_bounds _
    · rw [hout]
      exact List.mem_map.mpr ⟨qlistMax c, qlistMax_mem hne, hfmax⟩
    · rw [hout]
      exact List.mem_map.mpr ⟨qlistMin c, qlistMin_mem hne, hfmin⟩
  · intro hrange
    have h0 : (⌊min (255:ℚ) (max 0 0)⌋ : ℤ) = 0 := by
      rw [max_self, min_eq_right (by norm_num : (0:ℚ) ≤ 255), Int.floor_zero]
    have h255 : (⌊min (255:ℚ) (max 0 255)⌋ : ℤ) = 255 := by
      rw [max_eq_right (by norm_num : (0:ℚ) ≤ 255), min_self,
          show (255:ℚ) = ((255:ℤ):ℚ) by norm_num, Int.floor_intCast]
    constructor
    · intro hlt
      simp only [normalizeChannel, if_neg hrange, if_pos hlt, List.map_map]
      rw [show ((fun x => ⌊min (255:ℚ) (max 0 x)⌋) ∘ (fun _ : ℚ => (0:ℚ)))
          = (fun _ : ℚ => (0:ℤ)) from funext (fun _ => h0)]
      exact map_const_replicate c 0
    · intro hge
      simp only [normalizeChannel, if_neg hrange, if_neg hge, List.map_map]
      rw [show ((fun x => ⌊min (255:ℚ) (max 0 x)⌋) ∘ (fun _ : ℚ => (255:ℚ)))
          = (fun _ : ℚ => (255:ℤ)) from funext (fun _ => h255)]
      exact map_const_replicate c 255

/-- Witness for C5 at the channel `[0, 1]`. -/
theorem C5_feature_map_normalization_witness :
    ([0, 1] : List ℚ) ≠ [] ∧
    ((qlistMax [0, 1] - qlistMin [0, 1] > epsFM →
      (∀ i, i < ([0, 1] : List ℚ).length →
        (([0, 1] : List ℚ).getD i 0 = qlistMax [0, 1] →
          (normalizeChannel [0, 1]).getD i 0 = 255) ∧
        (([0, 1] : List ℚ).getD i 0 = qlistMin [0, 1] →
          (normalizeChannel [0, 1]).getD i 0 = 0)) ∧
      (∀ y ∈ normalizeChannel [0, 1], 0 ≤ y ∧ y ≤ 255) ∧
      255 ∈ normalizeChannel [0, 1] ∧ 0 ∈ normalizeChannel [0, 1]) ∧
    (¬(qlistMax [0, 1] - qlistMin [0, 1] > epsFM) →
      (qlistMax [0, 1] < epsFM →
        normalizeChannel [0, 1] = List.replicate ([0, 1] : List ℚ).length 0) ∧
      (¬(qlistMax [0, 1] < epsFM) →
        normalizeChannel [0, 1] = List.replicate ([0, 1] : List ℚ).length 255))) :=
  ⟨by decide, C5_feature_map_normalization [0, 1] (by decide)⟩

/-! ### C9: feature-map channel selection and the rank-4 filter -/

theorem topkIndices_eq_take (vals : List ℚ) (k : Nat) :
    topkIndices vals k = (sortedIdxByVal vals).take k := rfl

/-- `torch.topk` selection spec: the returned indices are distinct positions
below `vals.length`, and every returned position's value is at least every
non-returned position's value. -/
theorem topkIndices_spec (vals : List ℚ) (k : Nat) :
    (topkIndices vals k).Nodup ∧
    (∀ i ∈ topkIndices vals k, i < vals.length) ∧
    (∀ i ∈ topkIndices vals k, ∀ j, j < vals.length → j ∉ topkIndices vals k →
      vals.getD j 0 ≤ vals.getD i 0) := by
  haveI instTot : IsTotal Nat (fun i j => vals.getD j 0 ≤ vals.getD i 0) :=
    ⟨fun _ _ => le_total _ _⟩
  haveI instTrans : IsTrans Nat (fun i j => vals.getD j 0 ≤ vals.getD i 0) :=
    ⟨fun _ _ _ hab hbc => le_trans hbc hab⟩
  have hperm : List.Perm (sortedIdxByVal vals) (List.range vals.length) :=
    List.perm_insertionSort _ _
  have hsort : List.Sorted (fun i j => vals.getD j 0 ≤ vals.getD i 0) (sortedIdxByVal vals) :=
    List.sorted_insertionSort _ _
  have hnodup : (sortedIdxByVal vals).Nodup :=
    hperm.nodup_iff.mpr (List.nodup_range _)
  rw [topkIndices_eq_take]
  refine ⟨?_, ?_, ?_⟩
  · exact (List.take_sublist k _).nodup hnodup
  · intro i hi
    exact List.mem_range.mp (hperm.mem_iff.mp (List.mem_of_mem_take hi))
  · intro i hi j hj hjn
    have hjs : j ∈ sortedIdxByVal vals :=
      hperm.mem_iff.mpr (List.mem_range.mpr hj)
    rw [← List.take_append_drop k (sortedIdxByVal vals)] at hjs
    have hjd : j ∈ (sortedIdxByVal vals).drop k := by
      rcases List.mem_append.mp hjs with h | h
      · exact absurd h hjn
      · exact h
    have hpw := hsort
    rw [List.Sorted, ← List.take_append_drop k (sortedIdxByVal vals)] at hpw
    exact (List.pairwise_append.mp hpw).2.2 i hi j hjd

theorem range_getD (n i : Nat) (h : i < n) : (List.range n).getD i 0 = i := by
  rw [List.getD_eq_getElem (List.range n) 0 (by simpa using h)]
  simp

/-- C9: in `process_job`, a hooked layer receives feature-map treatment iff
its captured activation has rank 4; and on a `[1, C, H, W]` activation,
`save_feature_maps` ranks channels by spatial mean and keeps `min K C`
distinct channels, each recorded with its mean and max, such that every kept
channel's mean is at least every dropped channel's mean. -/
theorem C9_feature_map_rank_filter_and_selection
    (layer_paths : List String) (activations_dict : List (String × NDArr))
    (t : NDArr) (K C H W : Nat) (hshape : t.shape = [1, C, H, W]) :
    (∀ l ∈ layer_paths,
      (l ∈ layersForFeatureMaps layer_paths activations_dict ↔
        ∃ u, activations_dict.lookup l = some u ∧ u.ndim = 4)) ∧
    (save_feature_maps t K).length = min K C ∧
    ((save_feature_maps t K).map FeatureMapEntry.channel_index).Nodup ∧
    (∀ e ∈ save_feature_maps t K,
      e.channel_index < C ∧
      e.mean = channelMeanOf t e.channel_index ∧
      e.max = channelMaxOf t e.channel_index) ∧
    (∀ e ∈ save_feature_maps t K, ∀ c, c < C →
      c ∉ (save_feature_maps t K).map FeatureMapEntry.channel_index →
      channelMeanOf t c ≤ e.mean) := by
  have hch : t.squeeze0.shape.headD 0 = C := by
    simp [NDArr.squeeze0, hshape]
  have hsfm : save_feature_maps t K
      = (topkIndices ((List.range C).map (fun c => qmean (channelData t.squeeze0 c)))
          (min K C)).map (fun c =>
        { channel_index := c
          mean := qmean (channelData t.squeeze0 c)
          max := qlistMax (channelData t.squeeze0 c)
          image := normalizeChannel (channelData t.squeeze0 c) }) := by
    simp only [save_feature_maps, hch]
  have hmlen : ((List.range C).map (fun c => qmean (channelData t.squeeze0 c))).length = C := by
    simp
  have hmget : ∀ i, i < C →
      ((List.range C).map (fun c => qmean (channelData t.squeeze0 c))).getD i 0
        = channelMeanOf t i := by
    intro i hi
    rw [getD_map _ _ 0 0 i (by simpa using hi), range_getD C i hi]
    rfl
  obtain ⟨hnodup, hmem, hopt⟩ :=
    topkIndices_spec ((List.range C).map (fun c => qmean (channelData t.squeeze0 c))) (min K C)
  have hproj : ((save_feature_maps t K).map FeatureMapEntry.channel_index)
      = topkIndices ((List.range C).map (fun c => qmean (channelData t.squeeze0 c)))
          (min K C) := by
    rw [hsfm, List.map_map]
    exact List.map_id _
  refine ⟨?_, ?_, ?_, ?_, ?_⟩
  · intro l hl
    constructor
    · intro hf
      have hp := (List.mem_filter.mp hf).2
      cases hlk : activations_dict.lookup l with
      | none => rw [hlk] at hp; simp at hp
      | some u =>
        rw [hlk] at hp
        exact ⟨u, rfl, of_decide_eq_true hp⟩
    · rintro ⟨u, hu, hnd⟩
      refine List.mem_filter.mpr ⟨hl, ?_⟩
      rw [hu]
      exact decide_eq_true hnd
  · rw [hsfm, List.length_map, topkIndices_length, hmlen]
    omega
  · rw [hproj]
    exact hnodup
  · intro e he
    rw [hsfm] at he
    obtain ⟨c, hc, hce⟩ := List.mem_map.mp he
    have hlt : c < C := by
      have := hmem c hc
      rwa [hmlen] at this
    rw [← hce]
    exact ⟨hlt, rfl, rfl⟩
  · intro e he c hc hcn
    rw [hsfm] at he
    obtain ⟨i, hi, hie⟩ := List.mem_map.mp he
    have hiC : i < C := by
      have := hmem i hi
      rwa [hmlen] at this
    rw [hproj] at hcn
    have := hopt i hi c (by rwa [hmlen]) hcn
    rw [hmget i hiC, hmget c hc] at this
    rw [← hie]
    exact this

/-- Witness for C9: a `[1, 2, 1, 1]` activation with channel means 1 and 2,
one skippable rank-2 capture, and `K = 1`. -/
theorem C9_feature_map_rank_filter_and_selection_witness :
    (({ shape := [1, 2, 1, 1], data := [1, 2] } : NDArr).shape = [1, 2, 1, 1]) ∧
    ((∀ l ∈ ["layer4", "fc"],
      (l ∈ layersForFeatureMaps ["layer4", "fc"]
          [("layer4", { shape := [1, 2, 1, 1], data := [1, 2] }),
           ("fc", { shape := [1, 10], data := [] })] ↔
        ∃ u, [("layer4", ({ shape := [1, 2, 1, 1], data := [1, 2] } : NDArr)),
              ("fc", { shape := [1, 10], data := [] })].lookup l = some u ∧ u.ndim = 4)) ∧
    (save_feature_maps { shape := [1, 2, 1, 1], data := [1, 2] } 1).length = min 1 2 ∧
    ((save_feature_maps { shape := [1, 2, 1, 1], data := [1, 2] } 1).map
        FeatureMapEntry.channel_index).Nodup ∧
    (∀ e ∈ save_feature_maps { shape := [1, 2, 1, 1], data := [1, 2] } 1,
      e.channel_index < 2 ∧
      e.mean = channelMeanOf { shape := [1, 2, 1, 1], data := [1, 2] } e.channel_index ∧
      e.max = channelMaxOf { shape := [1, 2, 1, 1], data := [1, 2] } e.channel_index) ∧
    (∀ e ∈ save_feature_maps { shape := [1, 2, 1, 1], data := [1, 2] } 1, ∀ c, c < 2 →
      c ∉ (save_feature_maps { shape := [1, 2, 1, 1], data := [1, 2] } 1).map
        FeatureMapEntry.channel_index →
      channelMeanOf { shape := [1, 2, 1, 1], data := [1, 2] } c ≤ e.mean)) :=
  ⟨rfl, C9_feature_map_rank_filter_and_selection ["layer4", "fc"]
    [("layer4", { shape := [1, 2, 1, 1], data := [1, 2] }),
     ("fc", { shape := [1, 10], data := [] })]
    { shape := [1, 2, 1, 1], data := [1, 2] } 1 2 1 1 rfl⟩

/-! ### C4: per-(class, layer) failure isolation in the multi-layer explainer -/

theorem gradcamLayer_foldl (job_id : String)
    (acts grads : List (String × NDArr)) (cid : Nat) (cname : String) :
    ∀ (layers : List String) (ovs : List Overlay) (ws : List String),
      layers.foldl (gradcamLayerStep job_id acts grads cid cname) (ovs, ws)
        = (ovs ++ layers.filterMap (fun l => (processPair job_id acts grads cid l).toOption),
           ws ++ layers.filterMap (fun l =>
             match processPair job_id acts grads cid l with
             | .ok _ => none
             | .error e => some (camWarnMsg cid cname l e))) := by
  intro layers
  induction layers with
  | nil => intro ovs ws; simp
  | cons l ls ih =>
    intro ovs ws
    cases hp : processPair job_id acts grads cid l with
    | ok ov =>
      have hstep : gradcamLayerStep job_id acts grads cid cname (ovs, ws) l
          = (ovs ++ [ov], ws) := by simp [gradcamLayerStep, hp]
      rw [List.foldl_cons, hstep, ih]
      simp [List.filterMap_cons, hp, Except.toOption]
    | error e =>
      have hstep : gradcamLayerStep job_id acts grads cid cname (ovs, ws) l
          = (ovs, ws ++ [camWarnMsg cid cname l e]) := by simp [gradcamLayerStep, hp]
      rw [List.foldl_cons, hstep, ih]
      simp [List.filterMap_cons, hp, Except.toOption]

theorem gradcamClass_foldl (job_id : String) (cam_layers : List String)
    (acts grads : List (String × NDArr)) :
    ∀ (cls : List (Nat × String × ℚ)) (accc : List GradcamClass) (accw : List String),
      cls.foldl (gradcamClassStep job_id cam_layers acts grads) (accc, accw)
        = (accc ++ cls.map (expectedClassEntry job_id cam_layers acts grads),
           accw ++ cls.flatMap (expectedClassWarnings job_id cam_layers acts grads)) := by
  intro cls
  induction cls with
  | nil => intro accc accw; simp
  | cons cl cls ih =>
    intro accc accw
    have hstep : gradcamClassStep job_id cam_layers acts grads (accc, accw) cl
        = (accc ++ [expectedClassEntry job_id cam_layers acts grads cl],
           accw ++ expectedClassWarnings job_id cam_layers acts grads cl) := by
      simp [gradcamClassStep, gradcamLayer_foldl, expectedClassEntry, expectedClassWarnings]
    rw [List.foldl_cons, hstep, ih]
    simp [List.append_assoc]

/-- C4: the multi-layer Grad-CAM explainer raises exactly when no requested
layer resolves; otherwise it returns a result in which, per class, the
overlay list keeps exactly the (class, layer) pairs whose captures are
present (each failed pair is dropped from that class's overlays only, all
other pairs are still processed), and the warnings list records exactly the
failed pairs' warning strings. -/
theorem C4_gradcam_failure_isolation (job_id : String) (cam_layers : List String)
    (resolves : String → Bool) (top_k : Nat)
    (top_classes : List (Nat × String × ℚ))
    (acts grads : List (String × NDArr)) :
    (cam_layers.filter resolves = [] →
      generate_gradcam_multilayer job_id cam_layers resolves top_k top_classes acts grads
        = .error "No valid layers found in cam_layers") ∧
    (cam_layers.filter resolves ≠ [] →
      generate_gradcam_multilayer job_id cam_layers resolves top_k top_classes acts grads
        = .ok { top_k := top_k
                classes := top_classes.map (expectedClassEntry job_id cam_layers acts grads)
                layers := cam_layers
                warnings :=
                  if top_classes.flatMap (expectedClassWarnings job_id cam_layers acts grads) = []
                  then none
                  else some (top_classes.flatMap
                    (expectedClassWarnings job_id cam_layers acts grads)) }) := by
  constructor
  · intro hempty
    simp [generate_gradcam_multilayer, hempty]
  · intro hne
    simp only [generate_gradcam_multilayer, if_neg hne]
    rw [gradcamClass_foldl]
    simp

/-- Witness for C4: one resolvable layer plus one bogus layer (ok branch),
and a request in which nothing resolves (error branch). -/
theorem C4_gradcam_failure_isolation_witness :
    (generate_gradcam_multilayer "j" ["layer4", "bogus"] (fun l => l == "layer4") 1
        [(0, "cat", 9/10)]
        [("layer4", { shape := [1, 1, 1, 1], data := [1] })]
        [("layer4", { shape := [1, 1, 1, 1], data := [1] })]
      = .ok { top_k := 1
              classes := [(0, "cat", (9/10 : ℚ))].map (expectedClassEntry "j"
                ["layer4", "bogus"]
                [("layer4", { shape := [1, 1, 1, 1], data := [1] })]
                [("layer4", { shape := [1, 1, 1, 1], data := [1] })])
              layers := ["layer4", "bogus"]
              warnings :=
                if [((0 : Nat), "cat", (9/10 : ℚ))].flatMap (expectedClassWarnings "j"
                    ["layer4", "bogus"]
                    [("layer4", { shape := [1, 1, 1, 1], data := [1] })]
                    [("layer4", { shape := [1, 1, 1, 1], data := [1] })]) = []
                then none
                else some ([((0 : Nat), "cat", (9/10 : ℚ))].flatMap (expectedClassWarnings "j"
                    ["layer4", "bogus"]
                    [("layer4", { shape := [1, 1, 1, 1], data := [1] })]
                    [("layer4", { shape := [1, 1, 1, 1], data := [1] })])) }) ∧
    (generate_gradcam_multilayer "j" ["x"] (fun _ => false) 1 [] [] []
      = .error "No valid layers found in cam_layers") :=
  ⟨(C4_gradcam_failure_isolation "j" ["layer4", "bogus"] (fun l => l == "layer4") 1
      [(0, "cat", 9/10)]
      [("layer4", { shape := [1, 1, 1, 1], data := [1] })]
      [("layer4", { shape := [1, 1, 1, 1], data := [1] })]).2 (by decide),
   (C4_gradcam_failure_isolation "j" ["x"] (fun _ => false) 1 [] [] []).1 rfl⟩

end CNNViz
